import Mathlib

/-
Verification of the uniquevec crate (src/lib.rs): a Vec-like container
that only keeps unique entries.

The element type in Rust only carries PartialEq, an arbitrary boolean
comparison with no laws (it may even be irreflexive, as for NaN).  We
therefore embed every operation parametrised by an arbitrary
comparison function beq.  Rust Vec::contains probes with
stored == probe, which we mirror as beq stored probe.
-/

/-- Rust slice contains: true when some stored element e satisfies
e == x (stored element on the left). -/
def vecContains {α : Type} (beq : α → α → Bool) (l : List α) (x : α) : Bool :=
  l.any fun e => beq e x

/-- The UniqueVec struct: a newtype around a growable vector, embedded
as a list in storage order. -/
structure UniqueVec (α : Type) where
  inner : List α
deriving DecidableEq

/-- UniqueVec::new, lib.rs lines 172-174. -/
def UniqueVec.new {α : Type} : UniqueVec α :=
  ⟨[]⟩

/-- The filter_map loop inside UniqueVec::from_iter, lib.rs lines
190-201: new_inner is the mutable accumulator; an element already
contained in new_inner goes to the rest output, otherwise it is pushed
onto new_inner. -/
def from_iter_go {α : Type} (beq : α → α → Bool) (new_inner : List α) :
    List α → List α × List α
  | [] => (new_inner, [])
  | x :: xs =>
    if vecContains beq new_inner x then
      let r := from_iter_go beq new_inner xs
      (r.1, x :: r.2)
    else
      from_iter_go beq (new_inner ++ [x]) xs

/-- UniqueVec::from_iter, lib.rs lines 186-203: builds the unique
vector and returns it together with the rejected rest. -/
def UniqueVec.from_iter {α : Type} (beq : α → α → Bool) (xs : List α) :
    UniqueVec α × List α :=
  let r := from_iter_go beq [] xs
  (⟨r.1⟩, r.2)

/-- UniqueVec::push, lib.rs lines 215-225: returns the offered element
when an equal one is already contained, otherwise appends it. -/
def UniqueVec.push {α : Type} (beq : α → α → Bool) (v : UniqueVec α) (x : α) :
    UniqueVec α × Option α :=
  if vecContains beq v.inner x then
    (v, some x)
  else
    (⟨v.inner ++ [x]⟩, none)

/-- UniqueVec::clear, lib.rs lines 228-230. -/
def UniqueVec.clear {α : Type} (_v : UniqueVec α) : UniqueVec α :=
  ⟨[]⟩

/-- UniqueVec::pop, lib.rs lines 233-235: Vec::pop removes and returns
the last element, or returns none on an empty vector. -/
def UniqueVec.pop {α : Type} (v : UniqueVec α) : UniqueVec α × Option α :=
  (⟨v.inner.dropLast⟩, v.inner.getLast?)

/-- UniqueVec::extend_from_iter, lib.rs lines 243-252: partitions the
incoming iterator by membership in the vector as it stood before the
call (the closure only reads self, which is not mutated until after
the partition), then appends all non-members and returns the members
as duplicates. -/
def UniqueVec.extend_from_iter {α : Type} (beq : α → α → Bool)
    (v : UniqueVec α) (xs : List α) : UniqueVec α × List α :=
  let p := xs.partition fun e => vecContains beq v.inner e
  (⟨v.inner ++ p.2⟩, p.1)

/-- The From Vec impl for UniqueVec, lib.rs lines 272-279: keeps the
first component of from_iter and drops the rest. -/
def fromVec {α : Type} (beq : α → α → Bool) (xs : List α) : UniqueVec α :=
  (UniqueVec.from_iter beq xs).1

/-- Reference procedure from the spec wording: call push on each
element in order and collect every rejected value in order. -/
def pushAll {α : Type} (beq : α → α → Bool) (v : UniqueVec α) :
    List α → UniqueVec α × List α
  | [] => (v, [])
  | x :: xs =>
    let s := UniqueVec.push beq v x
    let r := pushAll beq s.1 xs
    (r.1, s.2.toList ++ r.2)

/-- Executable uniqueness check: no two distinct positions hold
mutually equal elements (both comparison directions are false). -/
def pairwiseNeqB {α : Type} (beq : α → α → Bool) : List α → Bool
  | [] => true
  | x :: xs => (xs.all fun y => !beq x y && !beq y x) && pairwiseNeqB beq xs

/-- The comparison function of the Nat element type, used for concrete
inputs. -/
def natBeq : Nat → Nat → Bool :=
  fun a b => a == b

/-- C2: refuted on the code.  extend_from_iter tests membership only
against the pre-call contents: extending an empty vector with [5, 5]
appends both copies and returns an empty duplicates vector, so two
mutually equal incoming elements are both appended. -/
theorem extend_from_iter_ignores_same_call :
    UniqueVec.extend_from_iter natBeq (UniqueVec.new : UniqueVec Nat) [5, 5]
      = (⟨[5, 5]⟩, []) := by
  decide

/-- C1: refuted on the code.  The sequence produced by new followed by
extend_from_iter([5, 5]) holds the equal element 5 at two distinct
positions, violating the uniqueness invariant. -/
theorem extend_from_iter_violates_invariant :
    (UniqueVec.extend_from_iter natBeq (UniqueVec.new : UniqueVec Nat) [5, 5]).1.inner
        = [5, 5] ∧
    pairwiseNeqB natBeq
        (UniqueVec.extend_from_iter natBeq (UniqueVec.new : UniqueVec Nat) [5, 5]).1.inner
      = false := by
  decide

/-- C3: refuted on the code.  On the input [5, 5] from the empty
vector, extend_from_iter keeps both copies and reports no duplicates,
while repeated push keeps one copy and rejects the other, so the two
procedures are not observably equivalent. -/
theorem extend_from_iter_differs_from_push :
    UniqueVec.extend_from_iter natBeq (UniqueVec.new : UniqueVec Nat) [5, 5]
        = (⟨[5, 5]⟩, []) ∧
    pushAll natBeq (UniqueVec.new : UniqueVec Nat) [5, 5] = (⟨[5]⟩, [5]) ∧
    UniqueVec.extend_from_iter natBeq (UniqueVec.new : UniqueVec Nat) [5, 5]
        ≠ pushAll natBeq (UniqueVec.new : UniqueVec Nat) [5, 5] := by
  decide

/-- C8: extend_from_iter appends, in input order, exactly the input
elements equal to no pre-call element, and returns, in input order,
exactly the input elements equal to some pre-call element; membership
is only ever tested against the pre-call contents v.inner. -/
theorem extend_from_iter_precall_membership {α : Type} (beq : α → α → Bool)
    (v : UniqueVec α) (xs : List α) :
    (UniqueVec.extend_from_iter beq v xs).1.inner
        = v.inner ++ xs.filter (fun x => !vecContains beq v.inner x) ∧
    (UniqueVec.extend_from_iter beq v xs).2
        = xs.filter (fun x => vecContains beq v.inner x) := by
  constructor <;>
    simp [UniqueVec.extend_from_iter, List.partition_eq_filter_filter, Function.comp_def]

/-- C9: the From Vec conversion equals the first component of
from_iter; on the documented example input the rejected duplicates
[33, 2] are discarded and only the unique part remains. -/
theorem from_vec_keeps_unique_part {α : Type} (beq : α → α → Bool) (xs : List α) :
    fromVec beq xs = (UniqueVec.from_iter beq xs).1 ∧
    fromVec natBeq [1, 33, 2, 0, 33, 4, 56, 2] = ⟨[1, 33, 2, 0, 4, 56]⟩ :=
  ⟨rfl, by decide⟩

/-- Unfolding lemma: the from_iter accumulator loop coincides with
repeated push starting from the accumulator. -/
theorem from_iter_go_eq_pushAll {α : Type} (beq : α → α → Bool) (xs : List α) :
    ∀ acc : List α,
      from_iter_go beq acc xs
        = ((pushAll beq ⟨acc⟩ xs).1.inner, (pushAll beq ⟨acc⟩ xs).2) := by
  induction xs with
  | nil => intro acc; rfl
  | cons x xs ih =>
    intro acc
    by_cases h : vecContains beq acc x
    · simp [from_iter_go, pushAll, UniqueVec.push, h, ih]
    · simp [from_iter_go, pushAll, UniqueVec.push, h, ih]

/-- C5: from_iter consumes the input in order, rejecting each element
exactly when it equals some already-accepted element and appending it
otherwise (it acts as repeated push from the empty vector), and the
documented example input produces the documented unique and rejected
outputs. -/
theorem from_iter_dedups_in_order {α : Type} (beq : α → α → Bool) (xs : List α) :
    UniqueVec.from_iter beq xs = pushAll beq UniqueVec.new xs ∧
    UniqueVec.from_iter natBeq [1, 33, 2, 0, 33, 4, 56, 2]
      = (⟨[1, 33, 2, 0, 4, 56]⟩, [33, 2]) := by
  refine ⟨?_, by decide⟩
  have h := from_iter_go_eq_pushAll beq xs []
  simp [UniqueVec.from_iter, UniqueVec.new, h]

/-- C4: push returns the offered element and leaves the vector
unchanged when some stored element equals it, and appends it at the
end returning none when no stored element equals it. -/
theorem push_rejects_or_appends {α : Type} (beq : α → α → Bool)
    (v : UniqueVec α) (x : α) :
    ((∃ e ∈ v.inner, beq e x = true) → UniqueVec.push beq v x = (v, some x)) ∧
    ((∀ e ∈ v.inner, beq e x = false) →
      UniqueVec.push beq v x = (⟨v.inner ++ [x]⟩, none)) := by
  constructor
  · intro h
    have hc : vecContains beq v.inner x = true := by
      simpa [vecContains, List.any_eq_true] using h
    simp [UniqueVec.push, hc]
  · intro h
    have hc : vecContains beq v.inner x = false := by
      simp only [vecContains, List.any_eq_false]
      intro e he
      simp [h e he]
    simp [UniqueVec.push, hc]

/-- Witness for C4 at concrete inputs: pushing 1 onto [1, 2] rejects
it unchanged, pushing 3 appends it. -/
theorem push_rejects_or_appends_witness :
    UniqueVec.push natBeq (⟨[1, 2]⟩ : UniqueVec Nat) 1 = (⟨[1, 2]⟩, some 1) ∧
    UniqueVec.push natBeq (⟨[1, 2]⟩ : UniqueVec Nat) 3 = (⟨[1, 2, 3]⟩, none) :=
  ⟨(push_rejects_or_appends natBeq ⟨[1, 2]⟩ 1).1 ⟨1, by decide, by decide⟩,
   (push_rejects_or_appends natBeq ⟨[1, 2]⟩ 3).2 (by decide)⟩

/-- If the accumulator elements all differ from the remaining input
and the remaining input is pairwise non-equal, the from_iter loop
appends everything and rejects nothing. -/
theorem from_iter_go_of_pairwise {α : Type} (beq : α → α → Bool) (l : List α) :
    ∀ acc : List α, (∀ a ∈ acc, ∀ b ∈ l, beq a b = false) →
      pairwiseNeqB beq l = true →
      from_iter_go beq acc l = (acc ++ l, []) := by
  induction l with
  | nil =>
    intro acc _ _
    simp [from_iter_go]
  | cons x xs ih =>
    intro acc hcross hpw
    simp only [pairwiseNeqB, Bool.and_eq_true, List.all_eq_true] at hpw
    have hc : vecContains beq acc x = false := by
      simp only [vecContains, List.any_eq_false]
      intro e he
      simp [hcross e he x (List.mem_cons_self x xs)]
    have hcross2 : ∀ a ∈ acc ++ [x], ∀ b ∈ xs, beq a b = false := by
      intro a ha b hb
      rcases List.mem_append.mp ha with h1 | h1
      · exact hcross a h1 b (List.mem_cons_of_mem x hb)
      · have hax : a = x := by simpa using h1
        subst hax
        have hx := hpw.1 b hb
        simp only [Bool.and_eq_true, Bool.not_eq_true'] at hx
        exact hx.1
    have h2 := ih (acc ++ [x]) hcross2 hpw.2
    simp [from_iter_go, hc, h2]

/-- C6: rebuilding a pairwise non-equal vector from its plain element
list via from_iter reproduces exactly the same vector with zero
rejects. -/
theorem from_iter_roundtrip {α : Type} (beq : α → α → Bool) (v : UniqueVec α)
    (h : pairwiseNeqB beq v.inner = true) :
    UniqueVec.from_iter beq v.inner = (v, []) := by
  have h2 := from_iter_go_of_pairwise beq v.inner [] (by simp) h
  simp [UniqueVec.from_iter, h2]

/-- Witness for C6 at the concrete pairwise non-equal vector
[1, 33, 2]. -/
theorem from_iter_roundtrip_witness :
    pairwiseNeqB natBeq [1, 33, 2] = true ∧
    UniqueVec.from_iter natBeq [1, 33, 2] = (⟨[1, 33, 2]⟩, []) :=
  ⟨by decide, from_iter_roundtrip natBeq ⟨[1, 33, 2]⟩ (by decide)⟩

/-- C7: pop on an empty vector returns none and leaves the state
unchanged, and pop on a non-empty vector removes and returns the last
element; pop is a total function, so it never raises a fault. -/
theorem pop_removes_last {α : Type} (v : UniqueVec α) :
    (v.inner = [] → UniqueVec.pop v = (v, none)) ∧
    (∀ l : List α, ∀ x : α, v.inner = l ++ [x] →
      UniqueVec.pop v = (⟨l⟩, some x)) := by
  obtain ⟨l0⟩ := v
  constructor
  · intro h
    simp only at h
    subst h
    rfl
  · intro l x h
    simp only at h
    subst h
    simp [UniqueVec.pop, List.dropLast_concat, List.getLast?_concat]

/-- Witness for C7: pop on the empty vector and pop on [1, 2]. -/
theorem pop_removes_last_witness :
    UniqueVec.pop (⟨[]⟩ : UniqueVec Nat) = (⟨[]⟩, none) ∧
    UniqueVec.pop (⟨[1, 2]⟩ : UniqueVec Nat) = (⟨[1]⟩, some 2) :=
  ⟨(pop_removes_last ⟨[]⟩).1 rfl, (pop_removes_last ⟨[1, 2]⟩).2 [1] 2 rfl⟩

/-- C10: when no stored element equals x, push x followed by pop
returns some x and restores the vector exactly. -/
theorem push_then_pop_restores {α : Type} (beq : α → α → Bool)
    (v : UniqueVec α) (x : α) (h : ∀ e ∈ v.inner, beq e x = false) :
    UniqueVec.pop (UniqueVec.push beq v x).1 = (v, some x) := by
  have hc : vecContains beq v.inner x = false := by
    simp only [vecContains, List.any_eq_false]
    intro e he
    simp [h e he]
  simp [UniqueVec.push, hc, UniqueVec.pop, List.dropLast_concat,
    List.getLast?_concat]

/-- Witness for C10: pushing 3 onto [1, 2] and popping returns 3 and
restores [1, 2]. -/
theorem push_then_pop_restores_witness :
    UniqueVec.pop (UniqueVec.push natBeq (⟨[1, 2]⟩ : UniqueVec Nat) 3).1
      = (⟨[1, 2]⟩, some 3) :=
  push_then_pop_restores natBeq ⟨[1, 2]⟩ 3 (by decide)
